import Mathlib

/- Shallow embedding of the Jellyfin-lyrics fetcher (src/main.py).

   Strings model Python strings (lists of code points).  Path functions
   follow POSIX os.path semantics (separator '/'), which is what the
   script's calls to os.path.commonpath / os.path.splitext compute.
   The filesystem (os.path.isdir / os.path.exists), the tag extractor
   (TinyTag via get_song_details) and the HTTP transport are oracles
   supplied as parameters; fallible code returns Except. -/

/-- The characters Python str.strip() removes: the full CPython
    Py_UNICODE_ISSPACE set (ASCII whitespace, the C1 controls 0x1c-0x1f,
    NEL, NBSP, Ogham space mark, the U+2000-200A spaces, line and
    paragraph separators, narrow NBSP, medium mathematical space,
    ideographic space). -/
def pyIsSpace (c : Char) : Bool :=
  let n := c.toNat
  (9 ≤ n && n ≤ 13) || (28 ≤ n && n ≤ 31) || n == 32 || n == 133 ||
    n == 160 || n == 5760 || (8192 ≤ n && n ≤ 8202) || n == 8232 ||
    n == 8233 || n == 8239 || n == 8287 || n == 12288

/-- Python line.strip() on a list of characters. -/
def pyStripChars (cs : List Char) : List Char :=
  ((cs.dropWhile pyIsSpace).reverse.dropWhile pyIsSpace).reverse

/-- Python line.strip() on a string. -/
def pyStrip (s : String) : String := String.mk (pyStripChars s.data)

/-- Python str.split(sep) for a one-character separator: "a/b" -> ["a","b"],
    "" -> [""], "a/" -> ["a",""]. -/
def splitChar (sep : Char) : List Char → List (List Char)
  | [] => [[]]
  | c :: cs =>
    if c = sep then [] :: splitChar sep cs
    else
      match splitChar sep cs with
      | [] => [[c]]
      | l :: ls => (c :: l) :: ls

/-- The cache file contents produced by the save loop: each item followed
    by a newline, in order. -/
def joinLines : List (List Char) → List Char
  | [] => []
  | l :: ls => l ++ '\n' :: joinLines ls

/-- sep.join(components) with separator '/' (as in posixpath.commonpath). -/
def joinSep : List (List Char) → List Char
  | [] => []
  | [l] => l
  | l :: l2 :: ls => l ++ '/' :: joinSep (l2 :: ls)

/-- Python p[:1] == sep : does the path start with '/'? -/
def pyIsAbs (s : String) : Bool :=
  match s.data with
  | '/' :: _ => true
  | _ => false

/-- The normalized component list used by posixpath.commonpath:
    split on '/', drop empty and '.' components ('..' is kept). -/
def normComps (s : String) : List (List Char) :=
  (splitChar '/' s.data).filter (fun c => decide (c ≠ []) && decide (c ≠ ['.']))

/-- Longest common leading segment of two component lists (what
    posixpath.commonpath computes via min/max and the first mismatch). -/
def commonLead : List (List Char) → List (List Char) → List (List Char)
  | a :: as, b :: bs => if a = b then a :: commonLead as bs else []
  | _, _ => []

/-- prefix + sep.join(common) : rebuild a path string from components. -/
def renderPath (isabs : Bool) (comps : List (List Char)) : String :=
  String.mk ((if isabs then ['/'] else []) ++ joinSep comps)

/-- os.path.commonpath([p, q]) (POSIX).  Raises ValueError (modelled as
    Except.error) when one path is absolute and the other relative. -/
def commonpath (p q : String) : Except Unit String :=
  if pyIsAbs p = pyIsAbs q then
    Except.ok (renderPath (pyIsAbs p) (commonLead (normComps p) (normComps q)))
  else Except.error ()

/-- The canonical rendering of a path from its normalized components. -/
def normalRender (s : String) : String := renderPath (pyIsAbs s) (normComps s)

/-- A path string is in normal form when rendering its normalized
    components reproduces it verbatim (no trailing '/', no empty or '.'
    segments). -/
def normalForm (s : String) : Prop := normalRender s = s

/-- The filesystem oracle: os.path.isdir and os.path.exists. -/
structure FS where
  isdir : String → Bool
  pathExists : String → Bool

/-- is_in_cache from src/main.py lines 27-35: iterate over the entries;
    a directory entry matches when os.path.commonpath([file_path, entry])
    equals the entry string, a non-directory entry matches by string
    equality.  A ValueError from commonpath escapes (Except.error). -/
def is_in_cache (fs : FS) (file_path : String) : List String → Except Unit Bool
  | [] => Except.ok false
  | entry :: rest =>
    if fs.isdir entry then
      match commonpath file_path entry with
      | Except.error e => Except.error e
      | Except.ok c =>
        if c = entry then Except.ok true else is_in_cache fs file_path rest
    else
      if file_path = entry then Except.ok true else is_in_cache fs file_path rest

/-- Python string comparison (lexicographic on code points), on characters. -/
def charListLe : List Char → List Char → Bool
  | [], _ => true
  | _ :: _, [] => false
  | a :: as, b :: bs =>
    if a.toNat = b.toNat then charListLe as bs else decide (a.toNat < b.toNat)

/-- Python string comparison a <= b. -/
def strLe (a b : String) : Bool := charListLe a.data b.data

/-- Insert into an ascending list, keeping it ascending. -/
def insertSorted (a : String) : List String → List String
  | [] => [a]
  | b :: bs => if strLe a b then a :: b :: bs else b :: insertSorted a bs

/-- Ascending sort by the Python string order (models sorted(...)). -/
def pySorted (l : List String) : List String := l.foldr insertSorted []

/-- Duplicate removal (models the element set of set(...)). -/
def pyDedup : List String → List String
  | [] => []
  | a :: as => if a ∈ as then pyDedup as else a :: pyDedup as

/-- sorted(set(cache)) : the deduplicated, ascending list of entries. -/
def pySortedSet (l : List String) : List String := pySorted (pyDedup l)

/-- save_cache from src/main.py lines 22-25, as the file contents written
    (mode "w" overwrites): for item in sorted(set(cache)): write(item+"\n"). -/
def save_cache (cache : List String) : String :=
  String.mk (joinLines ((pySortedSet cache).map String.data))

/-- Universal-newline translation performed by Python text-mode reading
    (mode "r", newline=None): "\r\n" and a lone "\r" both become "\n". -/
def univNl : List Char → List Char
  | [] => []
  | c :: cs =>
    if c = '\r' then
      match cs with
      | [] => ['\n']
      | '\n' :: cs' => '\n' :: univNl cs'
      | c' :: cs' => '\n' :: univNl (c' :: cs')
    else c :: univNl cs

/-- The list comprehension of load_cache (src/main.py line 19):
    [line.strip() for line in f if line.strip()] over the file contents,
    read in text mode (universal newlines, then lines split on '\n'). -/
def load_lines (content : String) : List String :=
  ((splitChar '\n' (univNl content.data)).map
    (fun cs => String.mk (pyStripChars cs))).filter (fun l => decide (l ≠ ""))

/-- load_cache from src/main.py lines 16-20.  The argument is the state of
    the cache file: none = absent (os.path.exists false, return []);
    some (Except.error _) = present but the read raises (uncaught);
    some (Except.ok content) = present with the given contents. -/
def load_cache : Option (Except Unit String) → Except Unit (List String)
  | none => Except.ok []
  | some (Except.error e) => Except.error e
  | some (Except.ok content) => Except.ok (load_lines content)

/-- The two optional string fields of the lrclib JSON body that
    get_lyrics reads; none models an absent field or JSON null. -/
structure JsonObj where
  syncedLyrics : Option String
  plainLyrics : Option String
deriving DecidableEq

/-- Result of the HTTP GET in get_lyrics: exn = any exception from the
    transport (connection error, timeout, ...); response st parsed = a
    response with status st, where parsed = none means r.json() raises
    (malformed body) and parsed = some j is the decoded object. -/
inductive HttpOutcome where
  | exn : HttpOutcome
  | response (status : Nat) (parsed : Option JsonObj) : HttpOutcome
deriving DecidableEq

/-- Python truthiness of an optional string: None and "" are falsy. -/
def pyTruthy : Option String → Bool
  | none => false
  | some s => decide (s ≠ "")

/-- get_lyrics from src/main.py lines 37-56, as a function of the HTTP
    outcome: on status 200, data.get("syncedLyrics") or
    data.get("plainLyrics"), returned only if truthy; every other path
    (exception, non-200 status, unparsable body, falsy lyrics) falls
    through to return None. -/
def get_lyrics : HttpOutcome → Option String
  | HttpOutcome.exn => none
  | HttpOutcome.response status parsed =>
    if status = 200 then
      match parsed with
      | none => none
      | some data =>
        let lyrics := if pyTruthy data.syncedLyrics then data.syncedLyrics
                      else data.plainLyrics
        if pyTruthy lyrics then lyrics else none
    else none

/-- A lookup outcome that is a transport error, timeout, non-200 status
    or malformed (unparsable) body. -/
def isFailure : HttpOutcome → Bool
  | HttpOutcome.exn => true
  | HttpOutcome.response status parsed => decide (status ≠ 200) || parsed.isNone

/-- The five terminal outcomes returned by process_file, carrying the
    subject path (and for error its cause description). -/
inductive Outcome where
  | cached (p : String)
  | already_exists (p : String)
  | found (p : String)
  | missing (p : String)
  | error (p : String) (e : String)
deriving DecidableEq

/-- How many times process_file performed each observable effect:
    metadata extraction attempts, network lookups, output-file write
    attempts. -/
structure Effects where
  extractions : Nat
  lookups : Nat
  writes : Nat
deriving DecidableEq

/-- The root part of os.path.splitext(p) (POSIX): strip the extension
    after the last '.' of the basename, unless the basename's characters
    before that '.' are all dots (so ".bashrc" keeps its name). -/
def splitextRoot (p : String) : String :=
  let cs := p.data
  let base := (cs.reverse.takeWhile (fun c => c != '/')).reverse
  let dir := cs.take (cs.length - base.length)
  let extRev := base.reverse.takeWhile (fun c => c != '.')
  if extRev.length = base.length then p
  else
    let stem := base.take (base.length - extRev.length - 1)
    if stem.any (fun c => c != '.') then String.mk (dir ++ stem) else p

/-- new_file_path from src/main.py line 66: os.path.splitext(p)[0]+".lrc". -/
def new_file_path (p : String) : String := splitextRoot p ++ ".lrc"

/-- process_file from src/main.py lines 62-92.  extract is the
    get_song_details call run in the executor, returning
    (album, title, artist, duration) or the caught exception's message;
    a missing (None) artist/title tag is modelled as "" (both are falsy
    in the line-76 check).  lookup is the semaphore-gated get_lyrics
    call; write is the output-file write, which can raise.  The returned
    Effects count the extraction, lookup and write attempts performed. -/
def process_file (fs : FS)
    (extract : String → Except String (String × String × String × Int))
    (lookup : String → String → String → Int → Option String)
    (write : String → String → Except String Unit)
    (file_path : String) (cache_entries : List String) :
    Except Unit (Outcome × Effects) :=
  match is_in_cache fs file_path cache_entries with
  | Except.error e => Except.error e
  | Except.ok true => Except.ok (Outcome.cached file_path, ⟨0, 0, 0⟩)
  | Except.ok false =>
    if fs.pathExists (new_file_path file_path) then
      Except.ok (Outcome.already_exists file_path, ⟨0, 0, 0⟩)
    else
      match extract file_path with
      | Except.error e => Except.ok (Outcome.error file_path e, ⟨1, 0, 0⟩)
      | Except.ok (album, title, artist, duration) =>
        if artist = "" ∨ title = "" then
          Except.ok (Outcome.missing file_path, ⟨1, 0, 0⟩)
        else
          match lookup artist title album duration with
          | none => Except.ok (Outcome.missing file_path, ⟨1, 1, 0⟩)
          | some lyrics =>
            match write (new_file_path file_path) lyrics with
            | Except.ok _ => Except.ok (Outcome.found file_path, ⟨1, 1, 1⟩)
            | Except.error e => Except.ok (Outcome.error file_path e, ⟨1, 1, 1⟩)

/-- The consuming loop of main_async (src/main.py lines 117-135), folded
    over the outcomes in completion order: already_exists and found
    append the path to cache_entries; found and missing/error bump the
    counters. -/
def drain (cache : List String) (found missingCt : Nat) :
    List Outcome → List String × Nat × Nat
  | [] => (cache, found, missingCt)
  | r :: rs =>
    match r with
    | Outcome.cached _ => drain cache found missingCt rs
    | Outcome.already_exists p => drain (cache ++ [p]) found missingCt rs
    | Outcome.found p => drain (cache ++ [p]) (found + 1) missingCt rs
    | Outcome.missing _ => drain cache found (missingCt + 1) rs
    | Outcome.error _ _ => drain cache found (missingCt + 1) rs

/-- The loop started on the loaded cache with zeroed counters. -/
def main_drain (cache0 : List String) (results : List Outcome) :
    List String × Nat × Nat :=
  drain cache0 0 0 results

/-- The paths the loop appends to cache_entries. -/
def appendedPaths (results : List Outcome) : List String :=
  results.filterMap fun r =>
    match r with
    | Outcome.already_exists p => some p
    | Outcome.found p => some p
    | _ => none

/-- The cache file contents written by save_cache(cache_entries) at the
    end of main_async (src/main.py line 137). -/
def saved_cache (cache0 : List String) (results : List Outcome) : String :=
  save_cache (main_drain cache0 results).1

/-- Formalization of the containment the spec describes for Contains
    (spec section 4.1): the path equals some entry, or some entry is a
    directory and the path lies lexically inside it, comparing
    normalized path-segment sequences (segment boundaries respected). -/
def contains_spec (fs : FS) (p : String) (entries : List String) : Prop :=
  ∃ e ∈ entries, p = e ∨
    (fs.isdir e = true ∧ pyIsAbs e = pyIsAbs p ∧
      ∃ t, normComps e ++ t = normComps p)

/-- An entry that the flat one-path-per-line cache file represents
    faithfully: nonempty, invariant under Python str.strip(), and free of
    the line terminators '\n' and '\r' (universal newlines treat a lone
    '\r' as ending a line too). -/
def cleanEntry (s : String) : Prop :=
  s ≠ "" ∧ pyStrip s = s ∧ '\n' ∉ s.data ∧ '\r' ∉ s.data

/- Helper lemmas about the line format of the cache file. -/

lemma splitChar_append_sep (sep : Char) (l rest : List Char) (h : sep ∉ l) :
    splitChar sep (l ++ sep :: rest) = l :: splitChar sep rest := by
  induction l with
  | nil => simp [splitChar]
  | cons c cs ih =>
    have hc : c ≠ sep := fun hcs => h (hcs ▸ List.mem_cons_self c cs)
    have hcs : sep ∉ cs := fun hm => h (List.mem_cons_of_mem c hm)
    simp only [List.cons_append, splitChar, if_neg hc, List.append_eq, ih hcs]

lemma splitChar_joinLines (lss : List (List Char))
    (h : ∀ cs ∈ lss, '\n' ∉ cs) :
    splitChar '\n' (joinLines lss) = lss ++ [[]] := by
  induction lss with
  | nil => simp [joinLines, splitChar]
  | cons l ls ih =>
    have hl : '\n' ∉ l := h l (List.mem_cons_self l ls)
    have hls : ∀ cs ∈ ls, '\n' ∉ cs := fun cs hm => h cs (List.mem_cons_of_mem l hm)
    simp only [joinLines, splitChar_append_sep '\n' l _ hl, ih hls, List.cons_append]

/- Membership lemmas for the sorted(set(...)) model. -/

lemma mem_insertSorted (a b : String) (l : List String) :
    a ∈ insertSorted b l ↔ a = b ∨ a ∈ l := by
  induction l with
  | nil => simp [insertSorted]
  | cons c cs ih =>
    by_cases hle : strLe b c
    · simp [insertSorted, hle]
    · simp only [insertSorted, if_neg hle, List.mem_cons, ih]
      tauto

lemma mem_pySorted (a : String) (l : List String) :
    a ∈ pySorted l ↔ a ∈ l := by
  induction l with
  | nil => simp [pySorted]
  | cons c cs ih =>
    simp only [pySorted, List.foldr] at ih ⊢
    rw [mem_insertSorted, ih, List.mem_cons]

lemma mem_pyDedup (a : String) (l : List String) :
    a ∈ pyDedup l ↔ a ∈ l := by
  induction l with
  | nil => simp [pyDedup]
  | cons c cs ih =>
    by_cases hc : c ∈ cs
    · simp only [pyDedup, if_pos hc, ih, List.mem_cons]
      constructor
      · exact Or.inr
      · rintro (rfl | h)
        · exact hc
        · exact h
    · simp only [pyDedup, if_neg hc, List.mem_cons, ih]

lemma mem_pySortedSet (a : String) (l : List String) :
    a ∈ pySortedSet l ↔ a ∈ l := by
  rw [pySortedSet, mem_pySorted, mem_pyDedup]

/- The cache round trip: loading what save_cache wrote. -/

lemma univNl_eq_self (cs : List Char) (h : '\r' ∉ cs) : univNl cs = cs := by
  induction cs with
  | nil => rfl
  | cons c cs' ih =>
    have hc : c ≠ '\r' := fun hcr => h (hcr ▸ List.mem_cons_self c cs')
    have hcs : '\r' ∉ cs' := fun hm => h (List.mem_cons_of_mem c hm)
    rw [univNl.eq_def]
    simp [hc, ih hcs]

lemma cr_not_mem_joinLines (lss : List (List Char))
    (h : ∀ cs ∈ lss, '\r' ∉ cs) : '\r' ∉ joinLines lss := by
  induction lss with
  | nil => simp [joinLines]
  | cons l ls ih =>
    intro hm
    rw [joinLines] at hm
    rcases List.mem_append.mp hm with hm | hm
    · exact h l (List.mem_cons_self l ls) hm
    · rcases List.mem_cons.mp hm with hm | hm
      · exact absurd hm (by decide)
      · exact ih (fun cs hcs => h cs (List.mem_cons_of_mem l hcs)) hm

lemma load_lines_save_cache (x : List String)
    (hclean : ∀ e ∈ x, cleanEntry e) :
    load_lines (save_cache x) = pySortedSet x := by
  have hc : ∀ e ∈ pySortedSet x, cleanEntry e := fun e he =>
    hclean e ((mem_pySortedSet e x).mp he)
  have hnl : ∀ cs ∈ (pySortedSet x).map String.data, '\n' ∉ cs := by
    intro cs hcs
    rcases List.mem_map.mp hcs with ⟨e, he, rfl⟩
    exact (hc e he).2.2.1
  have hcr : '\r' ∉ joinLines ((pySortedSet x).map String.data) := by
    apply cr_not_mem_joinLines
    intro cs hcs
    rcases List.mem_map.mp hcs with ⟨e, he, rfl⟩
    exact (hc e he).2.2.2
  unfold load_lines save_cache
  rw [show (String.mk (joinLines ((pySortedSet x).map String.data))).data
        = joinLines ((pySortedSet x).map String.data) from rfl,
    univNl_eq_self _ hcr, splitChar_joinLines _ hnl, List.map_append,
    List.map_map]
  have hmap : List.map ((fun cs => String.mk (pyStripChars cs)) ∘ String.data)
      (pySortedSet x) = pySortedSet x := by
    rw [show ((fun cs => String.mk (pyStripChars cs)) ∘ String.data)
          = fun e => pyStrip e from rfl]
    calc List.map (fun e => pyStrip e) (pySortedSet x)
        = List.map id (pySortedSet x) :=
          List.map_congr_left (fun e he => (hc e he).2.1)
      _ = pySortedSet x := List.map_id _
  rw [hmap, List.filter_append]
  have h1 : List.filter (fun l => decide (l ≠ "")) (pySortedSet x)
      = pySortedSet x :=
    List.filter_eq_self.mpr (fun a ha => decide_eq_true (hc a ha).1)
  have h2 : List.filter (fun l => decide (l ≠ ""))
      (List.map (fun cs => String.mk (pyStripChars cs)) [[]]) = [] := rfl
  rw [h1, h2, List.append_nil]

/- Certificates for the containment loop. -/

/-- What one cache entry can contribute: a non-directory entry matching
    the path verbatim, or a directory entry whose commonpath with the
    path is the entry itself. -/
def entryHit (fs : FS) (p e : String) : Prop :=
  (fs.isdir e = false ∧ p = e) ∨
    (fs.isdir e = true ∧ commonpath p e = Except.ok e)

lemma is_in_cache_ok_true_of_mem (fs : FS) (p e : String)
    (entries : List String)
    (habs : ∀ e' ∈ entries, fs.isdir e' = true → pyIsAbs e' = pyIsAbs p)
    (hmem : e ∈ entries) (hcert : entryHit fs p e) :
    is_in_cache fs p entries = Except.ok true := by
  induction entries with
  | nil => cases hmem
  | cons a rest ih =>
    have habs' : ∀ e' ∈ rest, fs.isdir e' = true → pyIsAbs e' = pyIsAbs p :=
      fun e' he' => habs e' (List.mem_cons_of_mem a he')
    rcases List.mem_cons.mp hmem with rfl | hrest
    · rcases hcert with ⟨hdir, rfl⟩ | ⟨hdir, hcp⟩
      · simp [is_in_cache, hdir]
      · simp [is_in_cache, hdir, hcp]
    · by_cases hdir : fs.isdir a = true
      · have hab : pyIsAbs a = pyIsAbs p := habs a (List.mem_cons_self a rest) hdir
        have hcp : commonpath p a =
            Except.ok (renderPath (pyIsAbs p)
              (commonLead (normComps p) (normComps a))) := by
          unfold commonpath
          rw [if_pos hab.symm]
        by_cases hca : renderPath (pyIsAbs p)
            (commonLead (normComps p) (normComps a)) = a
        · simp [is_in_cache, hdir, hcp, hca]
        · simp [is_in_cache, hdir, hcp, hca, ih habs' hrest]
      · by_cases hpa : p = a
        · simp [is_in_cache, hdir, hpa]
        · simp [is_in_cache, hdir, hpa, ih habs' hrest]

lemma exists_hit_of_is_in_cache_ok_true (fs : FS) (p : String)
    (entries : List String)
    (h : is_in_cache fs p entries = Except.ok true) :
    ∃ e ∈ entries, entryHit fs p e := by
  induction entries with
  | nil => simp [is_in_cache] at h
  | cons a rest ih =>
    by_cases hdir : fs.isdir a = true
    · rcases hcp : commonpath p a with u | c
      · simp [is_in_cache, hdir, hcp] at h
      · by_cases hca : c = a
        · refine ⟨a, List.mem_cons_self a rest, Or.inr ⟨hdir, ?_⟩⟩
          rw [hca] at hcp
          exact hcp
        · simp only [is_in_cache, hdir, if_true, hcp, if_neg hca] at h
          rcases ih h with ⟨e, he, hc⟩
          exact ⟨e, List.mem_cons_of_mem a he, hc⟩
    · have hdf : fs.isdir a = false := by simpa using hdir
      by_cases hpa : p = a
      · exact ⟨a, List.mem_cons_self a rest, Or.inl ⟨hdf, hpa⟩⟩
      · simp only [is_in_cache, hdf, Bool.false_eq_true, if_false,
          if_neg hpa] at h
        rcases ih h with ⟨e, he, hc⟩
        exact ⟨e, List.mem_cons_of_mem a he, hc⟩

/- Evaluating process_file in its cache-hit branch, and inverting a
   cached outcome. -/

lemma process_file_of_in_cache (fs : FS) (extract lookup write) (p : String)
    (entries : List String) (h : is_in_cache fs p entries = Except.ok true) :
    process_file fs extract lookup write p entries
      = Except.ok (Outcome.cached p, ⟨0, 0, 0⟩) := by
  unfold process_file
  rw [h]

lemma in_cache_of_process_file_cached (fs : FS) (extract lookup write)
    (p q : String) (entries : List String) (tr : Effects)
    (h : process_file fs extract lookup write p entries
      = Except.ok (Outcome.cached q, tr)) :
    is_in_cache fs p entries = Except.ok true := by
  rcases hic : is_in_cache fs p entries with e | b
  · simp [process_file, hic] at h
  · cases b
    · exfalso
      simp only [process_file, hic] at h
      split at h
      · exact absurd h (by simp)
      · split at h
        · exact absurd h (by simp)
        · split at h
          · exact absurd h (by simp)
          · split at h
            · exact absurd h (by simp)
            · split at h
              · exact absurd h (by simp)
              · exact absurd h (by simp)
    · rfl

/- The drain loop: its cache component is the loaded entries followed by
   the appended paths. -/

lemma drain_fst (results : List Outcome) (cache : List String)
    (found missingCt : Nat) :
    (drain cache found missingCt results).1 = cache ++ appendedPaths results := by
  induction results generalizing cache found missingCt with
  | nil => simp [drain, appendedPaths]
  | cons r rs ih =>
    cases r with
    | cached p => simp [drain, appendedPaths, ih, List.filterMap_cons]
    | already_exists p =>
      simp [drain, appendedPaths, ih, List.filterMap_cons, List.append_assoc]
    | found p =>
      simp [drain, appendedPaths, ih, List.filterMap_cons, List.append_assoc]
    | missing p => simp [drain, appendedPaths, ih, List.filterMap_cons]
    | error p e => simp [drain, appendedPaths, ih, List.filterMap_cons]

lemma mem_appendedPaths_of_mem (results : List Outcome) (p : String)
    (h : Outcome.already_exists p ∈ results ∨ Outcome.found p ∈ results) :
    p ∈ appendedPaths results := by
  rcases h with h | h
  · exact List.mem_filterMap.mpr ⟨Outcome.already_exists p, h, rfl⟩
  · exact List.mem_filterMap.mpr ⟨Outcome.found p, h, rfl⟩

/- Lemmas about path components, joining and the common leading segment. -/

lemma normComps_ne_nil (s : String) : ∀ x ∈ normComps s, x ≠ [] := by
  intro x hx
  have h := (List.mem_filter.mp hx).2
  rw [Bool.and_eq_true, decide_eq_true_eq, decide_eq_true_eq] at h
  exact h.1

lemma joinSep_ne_nil (x : List Char) (ts : List (List Char)) (hx : x ≠ []) :
    joinSep (x :: ts) ≠ [] := by
  cases ts with
  | nil => simpa [joinSep] using hx
  | cons y ys => simp [joinSep]

lemma joinSep_self_append (c t : List (List Char))
    (hne : ∀ x ∈ c ++ t, x ≠ [])
    (h : joinSep c = joinSep (c ++ t)) : t = [] := by
  induction c generalizing t with
  | nil =>
    cases t with
    | nil => rfl
    | cons x ts =>
      exfalso
      have hx : x ≠ [] := hne x (by simp)
      exact joinSep_ne_nil x ts hx (by simpa [joinSep] using h.symm)
  | cons a cs ih =>
    cases cs with
    | nil =>
      cases t with
      | nil => rfl
      | cons x ts =>
        exfalso
        rw [show ([a] ++ x :: ts) = a :: x :: ts from rfl, joinSep, joinSep] at h
        have hlen := congrArg List.length h
        simp [List.length_append] at hlen
    | cons b cs' =>
      have hstep : joinSep ((a :: b :: cs') ++ t)
          = a ++ '/' :: joinSep ((b :: cs') ++ t) := by
        rw [show ((a :: b :: cs') ++ t) = a :: b :: (cs' ++ t) from rfl, joinSep]
        rfl
      rw [joinSep, hstep] at h
      have h2 : joinSep (b :: cs') = joinSep ((b :: cs') ++ t) :=
        List.tail_eq_of_cons_eq (List.append_cancel_left h)
      exact ih t (fun x hx => hne x (by
        rcases List.mem_append.mp hx with hx | hx
        · exact List.mem_append.mpr (Or.inl (List.mem_cons_of_mem a hx))
        · exact List.mem_append.mpr (Or.inr hx))) h2

lemma commonLead_lead_right (as bs : List (List Char)) :
    ∃ t, commonLead as bs ++ t = bs := by
  induction as generalizing bs with
  | nil => exact ⟨bs, rfl⟩
  | cons a as' ih =>
    cases bs with
    | nil => exact ⟨[], rfl⟩
    | cons b bs' =>
      by_cases hab : a = b
      · subst hab
        rcases ih bs' with ⟨t, ht⟩
        refine ⟨t, ?_⟩
        show (if a = a then a :: commonLead as' bs' else []) ++ t = a :: bs'
        rw [if_pos rfl, List.cons_append, ht]
      · refine ⟨b :: bs', ?_⟩
        show (if a = b then a :: commonLead as' bs' else []) ++ (b :: bs') = b :: bs'
        rw [if_neg hab, List.nil_append]

lemma commonLead_eq_right_iff (as bs : List (List Char)) :
    commonLead as bs = bs ↔ ∃ t, bs ++ t = as := by
  induction as generalizing bs with
  | nil =>
    cases bs with
    | nil =>
      exact ⟨fun _ => ⟨[], rfl⟩, fun _ => rfl⟩
    | cons b bs' =>
      constructor
      · intro h
        have h' : ([] : List (List Char)) = b :: bs' := h
        exact absurd h'.symm (List.cons_ne_nil b bs')
      · rintro ⟨t, ht⟩
        exact absurd ht (by simp)
  | cons a as' ih =>
    cases bs with
    | nil =>
      exact ⟨fun _ => ⟨a :: as', rfl⟩, fun _ => rfl⟩
    | cons b bs' =>
      by_cases hab : a = b
      · subst hab
        constructor
        · intro h
          have h' : (if a = a then a :: commonLead as' bs' else []) = a :: bs' := h
          rw [if_pos rfl] at h'
          rcases (ih bs').mp (List.tail_eq_of_cons_eq h') with ⟨t, ht⟩
          exact ⟨t, by rw [List.cons_append, ht]⟩
        · rintro ⟨t, ht⟩
          have h2 : commonLead as' bs' = bs' :=
            (ih bs').mpr ⟨t, List.tail_eq_of_cons_eq ht⟩
          show (if a = a then a :: commonLead as' bs' else []) = a :: bs'
          rw [if_pos rfl, h2]
      · constructor
        · intro h
          have h' : ([] : List (List Char)) = b :: bs' := by
            have h2 : (if a = b then a :: commonLead as' bs' else []) = b :: bs' := h
            rwa [if_neg hab] at h2
          exact absurd h'.symm (List.cons_ne_nil b bs')
        · rintro ⟨t, ht⟩
          exact absurd (List.head_eq_of_cons_eq ht).symm hab

lemma renderPath_inj (b : Bool) (c d : List (List Char))
    (h : renderPath b c = renderPath b d) : joinSep c = joinSep d := by
  have h2 : (if b then ['/'] else []) ++ joinSep c
      = (if b then ['/'] else []) ++ joinSep d := congrArg String.data h
  exact List.append_cancel_left h2

lemma commonpath_ok_self_iff (p e : String) (hn : normalForm e)
    (hab : pyIsAbs e = pyIsAbs p) :
    commonpath p e = Except.ok e ↔ ∃ t, normComps e ++ t = normComps p := by
  have hn' : renderPath (pyIsAbs p) (normComps e) = e := by
    rw [← hab]
    exact hn
  have hcp : commonpath p e =
      Except.ok (renderPath (pyIsAbs p)
        (commonLead (normComps p) (normComps e))) := by
    unfold commonpath
    rw [if_pos hab.symm]
  constructor
  · intro h
    rw [hcp] at h
    have hok : renderPath (pyIsAbs p)
        (commonLead (normComps p) (normComps e)) = e := Except.ok.inj h
    have hjoin : joinSep (commonLead (normComps p) (normComps e))
        = joinSep (normComps e) :=
      renderPath_inj (pyIsAbs p) _ _ (hok.trans hn'.symm)
    rcases commonLead_lead_right (normComps p) (normComps e) with ⟨t', ht'⟩
    have ht'nil : t' = [] := by
      apply joinSep_self_append (commonLead (normComps p) (normComps e)) t'
      · intro x hx
        exact normComps_ne_nil e x (ht' ▸ hx)
      · rw [ht', hjoin]
    rw [ht'nil, List.append_nil] at ht'
    exact (commonLead_eq_right_iff (normComps p) (normComps e)).mp ht'
  · intro hpre
    have hcl : commonLead (normComps p) (normComps e) = normComps e :=
      (commonLead_eq_right_iff (normComps p) (normComps e)).mpr hpre
    rw [hcp, hcl, hn']

/- The Python string order: totality and transitivity, and the shape of
   sorted(set(...)). -/

lemma charListLe_total (a b : List Char) :
    charListLe a b = true ∨ charListLe b a = true := by
  induction a generalizing b with
  | nil => exact Or.inl rfl
  | cons x xs ih =>
    cases b with
    | nil => exact Or.inr rfl
    | cons y ys =>
      by_cases hxy : x.toNat = y.toNat
      · rcases ih ys with h | h
        · exact Or.inl (by simp [charListLe, hxy, h])
        · exact Or.inr (by simp [charListLe, hxy.symm, h])
      · rcases Nat.lt_or_gt_of_ne hxy with hlt | hgt
        · exact Or.inl (by simp [charListLe, hxy, hlt])
        · refine Or.inr ?_
          have hne : y.toNat ≠ x.toNat := fun h => hxy h.symm
          simp [charListLe, hne, hgt]

lemma charListLe_trans (a b c : List Char) (h1 : charListLe a b = true)
    (h2 : charListLe b c = true) : charListLe a c = true := by
  induction a generalizing b c with
  | nil => rfl
  | cons x xs ih =>
    cases b with
    | nil => simp [charListLe] at h1
    | cons y ys =>
      cases c with
      | nil => simp [charListLe] at h2
      | cons z zs =>
        by_cases hxy : x.toNat = y.toNat
        · by_cases hyz : y.toNat = z.toNat
          · have hxz : x.toNat = z.toNat := hxy.trans hyz
            rw [charListLe, if_pos hxy] at h1
            rw [charListLe, if_pos hyz] at h2
            rw [charListLe, if_pos hxz]
            exact ih ys zs h1 h2
          · rw [charListLe, if_neg hyz, decide_eq_true_eq] at h2
            have hlt : x.toNat < z.toNat := hxy ▸ h2
            rw [charListLe, if_neg (Nat.ne_of_lt hlt), decide_eq_true_eq]
            exact hlt
        · rw [charListLe, if_neg hxy, decide_eq_true_eq] at h1
          by_cases hyz : y.toNat = z.toNat
          · have hlt : x.toNat < z.toNat := hyz ▸ h1
            rw [charListLe, if_neg (Nat.ne_of_lt hlt), decide_eq_true_eq]
            exact hlt
          · rw [charListLe, if_neg hyz, decide_eq_true_eq] at h2
            have hlt : x.toNat < z.toNat := Nat.lt_trans h1 h2
            rw [charListLe, if_neg (Nat.ne_of_lt hlt), decide_eq_true_eq]
            exact hlt

lemma strLe_total (a b : String) : strLe a b = true ∨ strLe b a = true :=
  charListLe_total a.data b.data

lemma strLe_trans (a b c : String) (h1 : strLe a b = true)
    (h2 : strLe b c = true) : strLe a c = true :=
  charListLe_trans a.data b.data c.data h1 h2

lemma pairwise_insertSorted (a : String) (l : List String)
    (h : List.Pairwise (fun x y => strLe x y = true) l) :
    List.Pairwise (fun x y => strLe x y = true) (insertSorted a l) := by
  induction l with
  | nil => simp [insertSorted]
  | cons b bs ih =>
    rcases List.pairwise_cons.mp h with ⟨hb, hbs⟩
    by_cases hab : strLe a b = true
    · rw [insertSorted, if_pos hab]
      refine List.pairwise_cons.mpr ⟨?_, h⟩
      intro y hy
      rcases List.mem_cons.mp hy with rfl | hy
      · exact hab
      · exact strLe_trans a b y hab (hb y hy)
    · rw [insertSorted, if_neg hab]
      refine List.pairwise_cons.mpr ⟨?_, ih hbs⟩
      intro y hy
      rcases (mem_insertSorted y a bs).mp hy with heq | hy
      · subst heq
        rcases strLe_total y b with h' | h'
        · exact absurd h' hab
        · exact h'
      · exact hb y hy

lemma pairwise_pySorted (l : List String) :
    List.Pairwise (fun x y => strLe x y = true) (pySorted l) := by
  induction l with
  | nil => simp [pySorted]
  | cons a as ih => exact pairwise_insertSorted a (pySorted as) ih

lemma nodup_pyDedup (l : List String) : (pyDedup l).Nodup := by
  induction l with
  | nil => simp [pyDedup]
  | cons a as ih =>
    by_cases ha : a ∈ as
    · rw [pyDedup, if_pos ha]
      exact ih
    · rw [pyDedup, if_neg ha]
      exact List.nodup_cons.mpr ⟨fun hm => ha ((mem_pyDedup a as).mp hm), ih⟩

lemma nodup_insertSorted (a : String) (l : List String) (ha : a ∉ l)
    (h : l.Nodup) : (insertSorted a l).Nodup := by
  induction l with
  | nil => simp [insertSorted]
  | cons b bs ih =>
    rcases List.nodup_cons.mp h with ⟨hb, hbs⟩
    by_cases hab : strLe a b = true
    · rw [insertSorted, if_pos hab]
      exact List.nodup_cons.mpr ⟨ha, h⟩
    · rw [insertSorted, if_neg hab]
      refine List.nodup_cons.mpr ⟨?_, ih (fun hm => ha (List.mem_cons_of_mem b hm)) hbs⟩
      intro hm
      rcases (mem_insertSorted b a bs).mp hm with rfl | hm
      · exact ha (List.mem_cons_self b bs)
      · exact hb hm

lemma nodup_pySortedSet (l : List String) : (pySortedSet l).Nodup := by
  unfold pySortedSet
  have h : ∀ m : List String, m.Nodup → (pySorted m).Nodup := by
    intro m hm
    induction m with
    | nil => simp [pySorted]
    | cons a as ih =>
      rcases List.nodup_cons.mp hm with ⟨ha, has⟩
      exact nodup_insertSorted a (pySorted as)
        (fun hmem => ha ((mem_pySorted a as).mp hmem)) (ih has)
  exact h (pyDedup l) (nodup_pyDedup l)

/- Concrete oracles used to instantiate the theorems below on explicit
   inputs. -/

/-- A filesystem with no directories and no existing files. -/
def fsEmpty : FS := { isdir := fun _ => false, pathExists := fun _ => false }

/-- A filesystem whose only directory is "/a". -/
def fsDirA : FS := { isdir := fun q => decide (q = "/a"), pathExists := fun _ => false }

/-- A filesystem whose only directory is "/a/" (trailing separator). -/
def fsDirSlash : FS :=
  { isdir := fun q => decide (q = "/a/"), pathExists := fun _ => false }

/-- A filesystem whose only directory is "/d". -/
def fsDirD : FS := { isdir := fun q => decide (q = "/d"), pathExists := fun _ => false }

/-- A filesystem with no directories where only "b.lrc" exists. -/
def fsLrcB : FS :=
  { isdir := fun _ => false, pathExists := fun q => decide (q = "b.lrc") }

/-- An extractor returning fixed complete tags. -/
def extractFull : String → Except String (String × String × String × Int) :=
  fun _ => Except.ok ("alb", "t", "ar", 211)

/-- An extractor returning an empty artist tag. -/
def extractNoArtist : String → Except String (String × String × String × Int) :=
  fun _ => Except.ok ("alb", "t", "", 211)

/-- An extractor returning only artist and title (empty album, zero
    duration). -/
def extractMinimal : String → Except String (String × String × String × Int) :=
  fun _ => Except.ok ("", "t", "ar", 0)

/-- A lookup that never finds lyrics. -/
def lookupNone : String → String → String → Int → Option String :=
  fun _ _ _ _ => none

/-- A lookup that always finds the same lyrics. -/
def lookupHit : String → String → String → Int → Option String :=
  fun _ _ _ _ => some "[00:01.00] la"

/-- A writer that always succeeds. -/
def writeOk : String → String → Except String Unit := fun _ _ => Except.ok ()

instance (s : String) : Decidable (normalForm s) :=
  inferInstanceAs (Decidable (normalRender s = s))

instance (s : String) : Decidable (cleanEntry s) :=
  inferInstanceAs
    (Decidable (s ≠ "" ∧ pyStrip s = s ∧ '\n' ∉ s.data ∧ '\r' ∉ s.data))

/-- C1: for every path p contained in the loaded cache entries (per the
    containment test), process_file(p) terminates with outcome Cached and
    performs no metadata extraction, no network lookup and no file write. -/
theorem c1_cached_no_effects (fs : FS)
    (extract : String → Except String (String × String × String × Int))
    (lookup : String → String → String → Int → Option String)
    (write : String → String → Except String Unit)
    (p : String) (entries : List String)
    (h : is_in_cache fs p entries = Except.ok true) :
    process_file fs extract lookup write p entries
      = Except.ok (Outcome.cached p, ⟨0, 0, 0⟩) :=
  process_file_of_in_cache fs extract lookup write p entries h

/-- Witness for C1 at the concrete path "a.mp3" cached verbatim. -/
theorem c1_cached_no_effects_witness :
    is_in_cache fsEmpty "a.mp3" ["a.mp3"] = Except.ok true ∧
    process_file fsEmpty extractFull lookupNone writeOk "a.mp3" ["a.mp3"]
      = Except.ok (Outcome.cached "a.mp3", ⟨0, 0, 0⟩) :=
  ⟨rfl, c1_cached_no_effects fsEmpty extractFull lookupNone writeOk
    "a.mp3" ["a.mp3"] rfl⟩

/-- C2 counterexample: with the directory entry "/a/" (trailing separator)
    in the cache, the path "/a/x" lies lexically inside that directory
    (its normalized segments extend the entry's), yet is_in_cache returns
    false, because commonpath returns the normalized string "/a", which is
    compared against the raw entry string "/a/". -/
theorem c2_counterexample :
    is_in_cache fsDirSlash "/a/x" ["/a/"] = Except.ok false ∧
    contains_spec fsDirSlash "/a/x" ["/a/"] :=
  ⟨rfl, ⟨"/a/", List.mem_singleton.mpr rfl,
    Or.inr ⟨rfl, rfl, ⟨[['x']], rfl⟩⟩⟩⟩

/-- C2 amended: for cache entries in normal path form (no trailing
    separator, no empty or '.' segments) whose directory entries agree
    with the path on absoluteness, is_in_cache returns true iff the path
    equals some entry or lies lexically inside some directory entry,
    comparing whole path segments. -/
theorem c2_amended_contains_iff (fs : FS) (p : String) (entries : List String)
    (hnorm : ∀ e ∈ entries, normalForm e)
    (habs : ∀ e ∈ entries, fs.isdir e = true → pyIsAbs e = pyIsAbs p) :
    is_in_cache fs p entries = Except.ok true ↔ contains_spec fs p entries := by
  constructor
  · intro h
    rcases exists_hit_of_is_in_cache_ok_true fs p entries h with ⟨e, he, hhit⟩
    rcases hhit with ⟨hdir, hpe⟩ | ⟨hdir, hcp⟩
    · exact ⟨e, he, Or.inl hpe⟩
    · refine ⟨e, he, Or.inr ⟨hdir, habs e he hdir, ?_⟩⟩
      exact (commonpath_ok_self_iff p e (hnorm e he) (habs e he hdir)).mp hcp
  · rintro ⟨e, he, hc⟩
    rcases hc with hpe | ⟨hdir, hab, hpre⟩
    · by_cases hdir : fs.isdir e = true
      · have hcp : commonpath p e = Except.ok e := by
          rw [hpe]
          exact (commonpath_ok_self_iff e e (hnorm e he) rfl).mpr
            ⟨[], List.append_nil _⟩
        exact is_in_cache_ok_true_of_mem fs p e entries habs he
          (Or.inr ⟨hdir, hcp⟩)
      · have hdf : fs.isdir e = false := by simpa using hdir
        exact is_in_cache_ok_true_of_mem fs p e entries habs he
          (Or.inl ⟨hdf, hpe⟩)
    · have hcp : commonpath p e = Except.ok e :=
        (commonpath_ok_self_iff p e (hnorm e he) hab).mpr hpre
      exact is_in_cache_ok_true_of_mem fs p e entries habs he
        (Or.inr ⟨hdir, hcp⟩)

/-- Witness for the amended C2 with the normal-form directory entry "/a"
    covering "/a/x". -/
theorem c2_amended_contains_iff_witness :
    (∀ e ∈ ["/a"], normalForm e) ∧
    (∀ e ∈ ["/a"], fsDirA.isdir e = true → pyIsAbs e = pyIsAbs "/a/x") ∧
    (is_in_cache fsDirA "/a/x" ["/a"] = Except.ok true ↔
      contains_spec fsDirA "/a/x" ["/a"]) :=
  ⟨by decide, by decide,
    c2_amended_contains_iff fsDirA "/a/x" ["/a"] (by decide) (by decide)⟩

/-- C3 counterexample: one file with full tags whose lookup finds nothing.
    Run 1 ends Missing and does not cache the path, so run 2 over the
    unchanged directory repeats the lookup (lookups = 1, not 0) and again
    ends Missing, not Cached or AlreadyExists. -/
theorem c3_counterexample :
    process_file fsEmpty extractFull lookupNone writeOk "a.mp3" []
      = Except.ok (Outcome.missing "a.mp3", ⟨1, 1, 0⟩) ∧
    process_file fsEmpty extractFull lookupNone writeOk "a.mp3"
        (load_lines (saved_cache [] [Outcome.missing "a.mp3"]))
      = Except.ok (Outcome.missing "a.mp3", ⟨1, 1, 0⟩) :=
  ⟨rfl, rfl⟩

/-- C3 amended: every file whose run-1 outcome was Cached, AlreadyExists
    or Found resolves as Cached in a second run that loads the cache file
    persisted by run 1 over an unchanged directory tree, performing no
    extraction, lookup or write; files that ended Missing or Error are
    processed (and looked up) again. -/
theorem c3_amended_second_run (fs1 fs2 : FS)
    (ex1 : String → Except String (String × String × String × Int))
    (lk1 : String → String → String → Int → Option String)
    (wr1 : String → String → Except String Unit)
    (ex2 : String → Except String (String × String × String × Int))
    (lk2 : String → String → String → Int → Option String)
    (wr2 : String → String → Except String Unit)
    (p : String) (cache1 : List String) (results : List Outcome)
    (res : Outcome) (tr : Effects)
    (h1 : process_file fs1 ex1 lk1 wr1 p cache1 = Except.ok (res, tr))
    (h2 : res = Outcome.cached p ∨ res = Outcome.already_exists p ∨
      res = Outcome.found p)
    (h3 : res ∈ results)
    (h4 : ∀ e ∈ (main_drain cache1 results).1, cleanEntry e)
    (h5 : ∀ q, fs2.isdir q = fs1.isdir q)
    (h6 : fs2.isdir p = false)
    (h7 : ∀ e ∈ (main_drain cache1 results).1, fs2.isdir e = true →
      pyIsAbs e = pyIsAbs p) :
    process_file fs2 ex2 lk2 wr2 p (load_lines (saved_cache cache1 results))
      = Except.ok (Outcome.cached p, ⟨0, 0, 0⟩) := by
  have hload : load_lines (saved_cache cache1 results)
      = pySortedSet (main_drain cache1 results).1 :=
    load_lines_save_cache (main_drain cache1 results).1 h4
  have hmemF : ∀ x, x ∈ pySortedSet (main_drain cache1 results).1 ↔
      x ∈ (main_drain cache1 results).1 :=
    fun x => mem_pySortedSet x (main_drain cache1 results).1
  have habs2 : ∀ e ∈ pySortedSet (main_drain cache1 results).1,
      fs2.isdir e = true → pyIsAbs e = pyIsAbs p :=
    fun e he => h7 e ((hmemF e).mp he)
  have hdf : (main_drain cache1 results).1 = cache1 ++ appendedPaths results :=
    drain_fst results cache1 0 0
  rcases h2 with hres | hres | hres
  · subst hres
    have hic1 : is_in_cache fs1 p cache1 = Except.ok true :=
      in_cache_of_process_file_cached fs1 ex1 lk1 wr1 p p cache1 tr h1
    rcases exists_hit_of_is_in_cache_ok_true fs1 p cache1 hic1 with ⟨e, he, hhit⟩
    have heF : e ∈ (main_drain cache1 results).1 := by
      rw [hdf]
      exact List.mem_append.mpr (Or.inl he)
    have hhit2 : entryHit fs2 p e := by
      rcases hhit with ⟨hdir, hpe⟩ | ⟨hdir, hcp⟩
      · exact Or.inl ⟨(h5 e).trans hdir, hpe⟩
      · exact Or.inr ⟨(h5 e).trans hdir, hcp⟩
    rw [hload]
    exact process_file_of_in_cache fs2 ex2 lk2 wr2 p _
      (is_in_cache_ok_true_of_mem fs2 p e _ habs2 ((hmemF e).mpr heF) hhit2)
  · subst hres
    have hpF : p ∈ (main_drain cache1 results).1 := by
      rw [hdf]
      exact List.mem_append.mpr
        (Or.inr (mem_appendedPaths_of_mem results p (Or.inl h3)))
    rw [hload]
    exact process_file_of_in_cache fs2 ex2 lk2 wr2 p _
      (is_in_cache_ok_true_of_mem fs2 p p _ habs2 ((hmemF p).mpr hpF)
        (Or.inl ⟨h6, rfl⟩))
  · subst hres
    have hpF : p ∈ (main_drain cache1 results).1 := by
      rw [hdf]
      exact List.mem_append.mpr
        (Or.inr (mem_appendedPaths_of_mem results p (Or.inr h3)))
    rw [hload]
    exact process_file_of_in_cache fs2 ex2 lk2 wr2 p _
      (is_in_cache_ok_true_of_mem fs2 p p _ habs2 ((hmemF p).mpr hpF)
        (Or.inl ⟨h6, rfl⟩))

/-- Witness for the amended C3: "b.mp3" ends AlreadyExists in run 1 and
    Cached in run 2. -/
theorem c3_amended_second_run_witness :
    process_file fsLrcB extractFull lookupNone writeOk "b.mp3" []
      = Except.ok (Outcome.already_exists "b.mp3", ⟨0, 0, 0⟩) ∧
    process_file fsLrcB extractFull lookupNone writeOk "b.mp3"
        (load_lines (saved_cache [] [Outcome.already_exists "b.mp3"]))
      = Except.ok (Outcome.cached "b.mp3", ⟨0, 0, 0⟩) :=
  ⟨rfl,
    c3_amended_second_run fsLrcB fsLrcB extractFull lookupNone writeOk
      extractFull lookupNone writeOk "b.mp3" []
      [Outcome.already_exists "b.mp3"] (Outcome.already_exists "b.mp3")
      ⟨0, 0, 0⟩ rfl (Or.inr (Or.inl rfl)) (List.mem_singleton.mpr rfl)
      (by decide) (fun _ => rfl) rfl (by decide)⟩

/-- C4: a file whose sibling .lrc output already exists and which is not
    in the cache yields AlreadyExists with no extraction, lookup or write,
    and the drain loop appends the path to the in-memory cache, so it is
    among the entries save_cache writes at run end. -/
theorem c4_already_exists_cached (fs : FS)
    (extract : String → Except String (String × String × String × Int))
    (lookup : String → String → String → Int → Option String)
    (write : String → String → Except String Unit)
    (p : String) (entries : List String)
    (hnc : is_in_cache fs p entries = Except.ok false)
    (hex : fs.pathExists (new_file_path p) = true) :
    process_file fs extract lookup write p entries
      = Except.ok (Outcome.already_exists p, ⟨0, 0, 0⟩) ∧
    ∀ (results : List Outcome) (cache0 : List String),
      Outcome.already_exists p ∈ results →
        p ∈ (main_drain cache0 results).1 ∧
        p ∈ pySortedSet (main_drain cache0 results).1 := by
  constructor
  · simp [process_file, hnc, hex]
  · intro results cache0 hmem
    have hdf : (main_drain cache0 results).1
        = cache0 ++ appendedPaths results := drain_fst results cache0 0 0
    have hp : p ∈ (main_drain cache0 results).1 := by
      rw [hdf]
      exact List.mem_append.mpr
        (Or.inr (mem_appendedPaths_of_mem results p (Or.inl hmem)))
    exact ⟨hp, (mem_pySortedSet p _).mpr hp⟩

/-- Witness for C4: "b.mp3" with existing "b.lrc" and an empty cache. -/
theorem c4_already_exists_cached_witness :
    is_in_cache fsLrcB "b.mp3" [] = Except.ok false ∧
    fsLrcB.pathExists (new_file_path "b.mp3") = true ∧
    (process_file fsLrcB extractFull lookupNone writeOk "b.mp3" []
      = Except.ok (Outcome.already_exists "b.mp3", ⟨0, 0, 0⟩) ∧
    ∀ (results : List Outcome) (cache0 : List String),
      Outcome.already_exists "b.mp3" ∈ results →
        "b.mp3" ∈ (main_drain cache0 results).1 ∧
        "b.mp3" ∈ pySortedSet (main_drain cache0 results).1) :=
  ⟨rfl, rfl, c4_already_exists_cached fsLrcB extractFull lookupNone writeOk
    "b.mp3" [] rfl rfl⟩

/-- C5 counterexample: for the entry " a" (leading space), saving then
    loading yields ["a"], not the one-element set containing " a": the
    loader strips each line, so save/load is not the identity on the
    deduplicated sorted set of arbitrary entries. -/
theorem c5_counterexample :
    load_lines (save_cache [" a"]) = ["a"] ∧
    pySortedSet [" a"] = [" a"] ∧
    load_lines (save_cache [" a"]) ≠ pySortedSet [" a"] :=
  ⟨rfl, rfl, by decide⟩

/-- C5 amended: for every list x of entries that are nonempty, invariant
    under strip and newline-free, saving x and then loading yields exactly
    the deduplicated, lexicographically sorted list of x, whose members
    are those of x; save_cache writes one entry per line and overwrites
    any prior file. -/
theorem c5_roundtrip_clean (x : List String)
    (hclean : ∀ e ∈ x, cleanEntry e) :
    load_lines (save_cache x) = pySortedSet x ∧
    (∀ e, e ∈ load_lines (save_cache x) ↔ e ∈ x) ∧
    List.Pairwise (fun a b => strLe a b = true) (load_lines (save_cache x)) ∧
    (load_lines (save_cache x)).Nodup := by
  have h := load_lines_save_cache x hclean
  refine ⟨h, ?_, ?_, ?_⟩
  · intro e
    rw [h]
    exact mem_pySortedSet e x
  · rw [h]
    exact pairwise_pySorted (pyDedup x)
  · rw [h]
    exact nodup_pySortedSet x

/-- Witness for the amended C5 on the entry list ["b", "a", "b"]. -/
theorem c5_roundtrip_clean_witness :
    (∀ e ∈ ["b", "a", "b"], cleanEntry e) ∧
    (load_lines (save_cache ["b", "a", "b"]) = pySortedSet ["b", "a", "b"] ∧
    (∀ e, e ∈ load_lines (save_cache ["b", "a", "b"]) ↔ e ∈ ["b", "a", "b"]) ∧
    List.Pairwise (fun a b => strLe a b = true)
      (load_lines (save_cache ["b", "a", "b"])) ∧
    (load_lines (save_cache ["b", "a", "b"])).Nodup) :=
  ⟨by decide, c5_roundtrip_clean ["b", "a", "b"] (by decide)⟩

/-- C6: every transport error, timeout, non-200 status or malformed body
    makes get_lyrics return none rather than propagate an error — equal to
    its result on a genuine no-match body — and the file processor then
    ends with outcome Missing after one lookup. -/
theorem c6_lookup_failure_is_missing (h : HttpOutcome)
    (hf : isFailure h = true) :
    get_lyrics h = none ∧
    get_lyrics h = get_lyrics (HttpOutcome.response 200 (some ⟨none, none⟩)) ∧
    ∀ (fs : FS) (extract : String → Except String (String × String × String × Int))
      (write : String → String → Except String Unit)
      (p : String) (entries : List String) (alb t a : String) (d : Int),
      is_in_cache fs p entries = Except.ok false →
      fs.pathExists (new_file_path p) = false →
      extract p = Except.ok (alb, t, a, d) →
      a ≠ "" → t ≠ "" →
      process_file fs extract (fun _ _ _ _ => get_lyrics h) write p entries
        = Except.ok (Outcome.missing p, ⟨1, 1, 0⟩) := by
  have hnone : get_lyrics h = none := by
    cases h with
    | exn => rfl
    | response st parsed =>
      rw [isFailure, Bool.or_eq_true, decide_eq_true_eq] at hf
      by_cases hst : st = 200
      · subst hst
        rcases hf with hf | hf
        · exact absurd rfl hf
        · cases parsed with
          | none => rfl
          | some j => simp [Option.isNone] at hf
      · simp [get_lyrics, hst]
  refine ⟨hnone, by rw [hnone]; rfl, ?_⟩
  intro fs extract write p entries alb t a d hnc hex hext ha ht
  simp [process_file, hnc, hex, hext, ha, ht, hnone]

/-- Witness for C6 with a transport exception and the file "a.mp3". -/
theorem c6_lookup_failure_is_missing_witness :
    isFailure HttpOutcome.exn = true ∧
    process_file fsEmpty extractFull
        (fun _ _ _ _ => get_lyrics HttpOutcome.exn) writeOk "a.mp3" []
      = Except.ok (Outcome.missing "a.mp3", ⟨1, 1, 0⟩) :=
  ⟨rfl, (c6_lookup_failure_is_missing HttpOutcome.exn rfl).2.2 fsEmpty
    extractFull writeOk "a.mp3" [] "alb" "t" "ar" 211 rfl rfl rfl
    (by decide) (by decide)⟩

/-- C7: only artist and title are required for a lookup — an empty artist
    or title ends Missing after extraction with no lookup, while an empty
    album and zero duration still reach the lookup (one lookup attempt is
    made). -/
theorem c7_artist_title_required :
    (∀ (fs : FS) (extract : String → Except String (String × String × String × Int))
      (lookup : String → String → String → Int → Option String)
      (write : String → String → Except String Unit)
      (p : String) (entries : List String) (alb t a : String) (d : Int),
      is_in_cache fs p entries = Except.ok false →
      fs.pathExists (new_file_path p) = false →
      extract p = Except.ok (alb, t, a, d) →
      (a = "" ∨ t = "") →
      process_file fs extract lookup write p entries
        = Except.ok (Outcome.missing p, ⟨1, 0, 0⟩)) ∧
    (∀ (fs : FS) (extract : String → Except String (String × String × String × Int))
      (lookup : String → String → String → Int → Option String)
      (write : String → String → Except String Unit)
      (p : String) (entries : List String) (t a : String),
      is_in_cache fs p entries = Except.ok false →
      fs.pathExists (new_file_path p) = false →
      extract p = Except.ok ("", t, a, 0) →
      a ≠ "" → t ≠ "" →
      ∃ r tr, process_file fs extract lookup write p entries
        = Except.ok (r, tr) ∧ tr.lookups = 1) := by
  constructor
  · intro fs extract lookup write p entries alb t a d hnc hex hext hor
    simp [process_file, hnc, hex, hext, hor]
  · intro fs extract lookup write p entries t a hnc hex hext ha ht
    cases hlk : lookup a t "" 0 with
    | none =>
      refine ⟨Outcome.missing p, ⟨1, 1, 0⟩, ?_, rfl⟩
      simp [process_file, hnc, hex, hext, ha, ht, hlk]
    | some ly =>
      cases hwr : write (new_file_path p) ly with
      | ok u =>
        refine ⟨Outcome.found p, ⟨1, 1, 1⟩, ?_, rfl⟩
        simp [process_file, hnc, hex, hext, ha, ht, hlk, hwr]
      | error e =>
        refine ⟨Outcome.error p e, ⟨1, 1, 1⟩, ?_, rfl⟩
        simp [process_file, hnc, hex, hext, ha, ht, hlk, hwr]

/-- Witness for C7: an empty artist ends Missing without a lookup; empty
    album and zero duration still produce one lookup. -/
theorem c7_artist_title_required_witness :
    process_file fsEmpty extractNoArtist lookupHit writeOk "a.mp3" []
      = Except.ok (Outcome.missing "a.mp3", ⟨1, 0, 0⟩) ∧
    (∃ r tr, process_file fsEmpty extractMinimal lookupHit writeOk "a.mp3" []
      = Except.ok (r, tr) ∧ tr.lookups = 1) :=
  ⟨c7_artist_title_required.1 fsEmpty extractNoArtist lookupHit writeOk
      "a.mp3" [] "alb" "t" "" 211 rfl rfl rfl (Or.inl rfl),
   c7_artist_title_required.2 fsEmpty extractMinimal lookupHit writeOk
      "a.mp3" [] "t" "ar" rfl rfl rfl (by decide) (by decide)⟩

/-- C8 counterexample: the cache containment check itself raises — with
    the directory entry "/d" in the cache, processing the relative path
    "rel.mp3" makes commonpath raise ValueError, which escapes
    process_file and aborts the run — and a cache-file read failure other
    than absence propagates out of load_cache instead of degrading to an
    empty cache. -/
theorem c8_counterexample :
    process_file fsDirD extractFull lookupNone writeOk "rel.mp3" ["/d"]
      = Except.error () ∧
    load_cache (some (Except.error ())) = Except.error () :=
  ⟨rfl, rfl⟩

/-- C8 amended: the cache containment check is the only per-file step
    whose exception escapes process_file — process_file raises exactly
    when is_in_cache does (extraction, lookup and write failures are
    caught and become outcomes) — and a cache-file read failure other
    than absence propagates out of load_cache and aborts the run. -/
theorem c8_amended_only_cache_check_escapes :
    (∀ (fs : FS) (extract : String → Except String (String × String × String × Int))
      (lookup : String → String → String → Int → Option String)
      (write : String → String → Except String Unit)
      (p : String) (entries : List String) (u : Unit),
      process_file fs extract lookup write p entries = Except.error u ↔
        is_in_cache fs p entries = Except.error u) ∧
    load_cache (some (Except.error ())) = Except.error () := by
  refine ⟨?_, rfl⟩
  intro fs extract lookup write p entries u
  constructor
  · intro h
    rcases hic : is_in_cache fs p entries with e | b
    · cases e
      cases u
      rfl
    · exfalso
      cases b
      · simp only [process_file, hic] at h
        split at h
        · exact absurd h (by simp)
        · split at h
          · exact absurd h (by simp)
          · split at h
            · exact absurd h (by simp)
            · split at h
              · exact absurd h (by simp)
              · split at h
                · exact absurd h (by simp)
                · exact absurd h (by simp)
      · simp [process_file, hic] at h
  · intro h
    simp [process_file, h]

/-- C10: an empty or absent syncedLyrics field is never preferred — on a
    200 response the plainLyrics field decides whenever syncedLyrics is
    falsy; when both are empty strings or both absent/null, get_lyrics
    returns none and the file's outcome is Missing. -/
theorem c10_synced_falsy_fallback :
    (∀ sy pl : Option String, pyTruthy sy = false →
      get_lyrics (HttpOutcome.response 200 (some ⟨sy, pl⟩))
        = (if pyTruthy pl = true then pl else none)) ∧
    get_lyrics (HttpOutcome.response 200 (some ⟨some "", some ""⟩)) = none ∧
    get_lyrics (HttpOutcome.response 200 (some ⟨none, none⟩)) = none ∧
    (∀ (fs : FS) (extract : String → Except String (String × String × String × Int))
      (write : String → String → Except String Unit)
      (p : String) (entries : List String) (alb t a : String) (d : Int),
      is_in_cache fs p entries = Except.ok false →
      fs.pathExists (new_file_path p) = false →
      extract p = Except.ok (alb, t, a, d) →
      a ≠ "" → t ≠ "" →
      process_file fs extract
          (fun _ _ _ _ =>
            get_lyrics (HttpOutcome.response 200 (some ⟨some "", some ""⟩)))
          write p entries
        = Except.ok (Outcome.missing p, ⟨1, 1, 0⟩)) := by
  refine ⟨?_, rfl, rfl, ?_⟩
  · intro sy pl hsy
    simp [get_lyrics, hsy]
  · intro fs extract write p entries alb t a d hnc hex hext ha ht
    simp [process_file, hnc, hex, hext, ha, ht, get_lyrics, pyTruthy]

/-- Witness for C10: falsy synced falls back to "PL"; both-empty fields
    end Missing for "a.mp3". -/
theorem c10_synced_falsy_fallback_witness :
    pyTruthy (some "") = false ∧
    get_lyrics (HttpOutcome.response 200 (some ⟨some "", some "PL"⟩))
      = (if pyTruthy (some "PL") = true then some "PL" else none) ∧
    process_file fsEmpty extractFull
        (fun _ _ _ _ =>
          get_lyrics (HttpOutcome.response 200 (some ⟨some "", some ""⟩)))
        writeOk "a.mp3" []
      = Except.ok (Outcome.missing "a.mp3", ⟨1, 1, 0⟩) :=
  ⟨rfl, c10_synced_falsy_fallback.1 (some "") (some "PL") rfl,
   c10_synced_falsy_fallback.2.2.2 fsEmpty extractFull writeOk "a.mp3" []
     "alb" "t" "ar" 211 rfl rfl rfl (by decide) (by decide)⟩
